import Mathlib

/-!
Verification of the length-prefixed TCP chat programs (`client.py`, `server.py`).

Bytes and Unicode code points are modelled as `Nat`; byte strings are
`List Nat`.  The client's frame construction (`send`, client.py lines 43-59),
the server's per-connection handler (`handle_client`, server.py lines 38-92)
and the client's interactive loop (client.py lines 78-98) are embedded as
executable functions.  Socket I/O is modelled by an explicit schedule of
operation results consumed one per socket call.
-/

namespace TcpChat

/-- Fixed header width, `HEADER = 64` in both client.py and server.py. -/
def HEADER : Nat := 64

/-- The disconnect sentinel `"!Disconnect"` as a list of code points. -/
def MSG_DISCONNECT : List Nat := [33, 68, 105, 115, 99, 111, 110, 110, 101, 99, 116]

/-- Fuel-driven rendering of a natural number as ASCII decimal digit bytes,
accumulating low digits in `acc`; embeds Python's `str(msg_length)`. -/
def natToDecimalAux : Nat → Nat → List Nat → List Nat
  | 0, _, acc => acc
  | fuel + 1, n, acc =>
    if n / 10 = 0 then (48 + n % 10) :: acc
    else natToDecimalAux fuel (n / 10) ((48 + n % 10) :: acc)

/-- ASCII decimal digit bytes of `n`: the bytes of Python's `str(n)`. -/
def natToDecimal (n : Nat) : List Nat := natToDecimalAux (n + 1) n []

/-- Client header construction (client.py lines 50-54): the decimal digits of
the payload length followed by space padding up to `HEADER` bytes.  For
lengths with more than `HEADER` digits the padding count is `0` (Python's
`b' ' * negative` is empty), so the digits are emitted unpadded. -/
def clientHeaderBytes (L : Nat) : List Nat :=
  natToDecimal L ++ List.replicate (HEADER - (natToDecimal L).length) 32

/-- The full frame the client transmits (client.py lines 57-59):
header bytes then payload bytes. -/
def clientFrame (payload : List Nat) : List Nat :=
  clientHeaderBytes payload.length ++ payload

/-- UTF-8 encoding of a single code point (Python `str.encode('utf-8')`). -/
def utf8EncodeChar (c : Nat) : List Nat :=
  if c < 128 then [c]
  else if c < 2048 then [192 + c / 64, 128 + c % 64]
  else if c < 65536 then [224 + c / 4096, 128 + c / 64 % 64, 128 + c % 64]
  else [240 + c / 262144, 128 + c / 4096 % 64, 128 + c / 64 % 64, 128 + c % 64]

/-- UTF-8 encoding of a string of code points. -/
def utf8Encode (s : List Nat) : List Nat := (s.map utf8EncodeChar).flatten

/-- Whether a byte is a UTF-8 continuation byte. -/
def isCont (b : Nat) : Bool := 128 ≤ b && b < 192

/-- Strict UTF-8 decoding, byte at a time.  The first argument is the pending
multi-byte sequence, if any: `(need, acc, lo)` means `need` continuation
bytes are still expected, `acc` holds the bits read so far, and `lo` is the
smallest code point the sequence's length may legally produce (the overlong
check).  Surrogates and code points above `0x10FFFF` are rejected on
completion, stray or missing continuation bytes immediately. -/
def utf8DecodeAux : Option (Nat × Nat × Nat) → List Nat → Option (List Nat)
  | none, [] => some []
  | some _, [] => none
  | none, b :: rest =>
    if b < 128 then (utf8DecodeAux none rest).map (b :: ·)
    else if b < 192 then none
    else if b < 224 then utf8DecodeAux (some (1, b - 192, 128)) rest
    else if b < 240 then utf8DecodeAux (some (2, b - 224, 2048)) rest
    else if b < 248 then utf8DecodeAux (some (3, b - 240, 65536)) rest
    else none
  | some (need, acc, lo), b :: rest =>
    if isCont b then
      let acc2 := acc * 64 + (b - 128)
      if need = 1 then
        if lo ≤ acc2 && acc2 ≤ 1114111 && !(55296 ≤ acc2 && acc2 ≤ 57343) then
          (utf8DecodeAux none rest).map (acc2 :: ·)
        else none
      else utf8DecodeAux (some (need - 1, acc2, lo)) rest
    else none

/-- Strict UTF-8 decoding (Python `bytes.decode('utf-8')`): `none` where
Python raises `UnicodeDecodeError`. -/
def utf8Decode (l : List Nat) : Option (List Nat) := utf8DecodeAux none l

/-- ASCII whitespace stripped by Python's `int()` (space, tab, LF, VT, FF, CR). -/
def isWsByte (c : Nat) : Bool := c = 32 || c = 9 || c = 10 || c = 11 || c = 12 || c = 13

/-- ASCII decimal digit test. -/
def isDigitB (c : Nat) : Bool := 48 ≤ c && c ≤ 57

/-- Strip leading and trailing whitespace, as Python's `int()` does. -/
def stripWs (s : List Nat) : List Nat :=
  ((s.dropWhile isWsByte).reverse.dropWhile isWsByte).reverse

/-- Parse a run of decimal digits (single underscores allowed between digits,
as in Python's integer literal grammar), extending the accumulator `acc`. -/
def parseDigitRun : Nat → List Nat → Option Nat
  | acc, [] => some acc
  | acc, c :: cs =>
    if isDigitB c then parseDigitRun (10 * acc + (c - 48)) cs
    else if c = 95 then
      match cs with
      | c2 :: cs2 =>
        if isDigitB c2 then parseDigitRun (10 * acc + (c2 - 48)) cs2 else none
      | [] => none
    else none

/-- Parse the digit part after an optional sign; `none` where Python's
`int()` raises `ValueError`. -/
def parseBody (neg : Bool) : List Nat → Option Int
  | [] => none
  | d :: ds =>
    if isDigitB d then
      (parseDigitRun (d - 48) ds).map (fun n => if neg then -(n : Int) else (n : Int))
    else none

/-- Model of Python's `int(s)` on a string of code points: strip whitespace,
optional sign, then a decimal digit run.  `none` models `ValueError`. -/
def pythonInt (s : List Nat) : Option Int :=
  match stripWs s with
  | [] => none
  | c :: cs =>
    if c = 43 then parseBody false cs
    else if c = 45 then parseBody true cs
    else parseBody false (c :: cs)

/-- The server's header interpretation `int(bytes.decode('utf-8'))`
(server.py lines 51 and 59): UTF-8 decode then `int()` parse. -/
def decodeHeaderVal (bs : List Nat) : Option Int :=
  (utf8Decode bs).bind pythonInt

/-- Result of one socket operation on the server connection, as scheduled by
the network: `ok bytes` is a successful call (`recv` returns `bytes`, capped
below at the requested count; for `send` the bytes are irrelevant), `reset`
models `ConnectionResetError`, `err` any other exception the generic
`except Exception` arm catches. -/
inductive OpResult
  | ok (bytes : List Nat)
  | reset
  | err
deriving DecidableEq

/-- Observable actions of the server handler: the payload-read request with
its byte count (`conn.recv(msg_length)`), the console logs of the four
branches, the acknowledgment send, and the final `conn.close()`. -/
inductive Action
  | reqPayload (n : Nat)
  | logMsg (msg : List Nat)
  | logReset
  | logInvalidHeader
  | logUnexpected
  | sendAck
  | close
deriving DecidableEq

/-- Control point of the handler loop between socket operations:
waiting on the header `recv`, waiting on the payload `recv` for `n` bytes,
waiting on the acknowledgment `send` (with the decoded message, needed for
the sentinel check), or loop finished (`connected = False`). -/
inductive HState
  | waitHeader
  | waitPayload (n : Nat)
  | waitSend (msg : List Nat)
  | hDone
deriving DecidableEq

/-- One socket operation of `handle_client` (server.py lines 47-86): given
the current control point and the operation's result, the next control point
and the actions performed.  Mirrors the source line by line: empty header →
clean loop exit; `int()` failure (including a `UnicodeDecodeError`, a
subclass of `ValueError`) → the invalid-header branch; a negative parsed
length makes `conn.recv(msg_length)` raise `ValueError` before any I/O,
landing in the same branch; the sentinel check only clears `connected`, so
the log and acknowledgment still happen for a sentinel frame. -/
def step : HState → OpResult → HState × List Action
  | .waitHeader, .reset => (.hDone, [.logReset])
  | .waitHeader, .err => (.hDone, [.logUnexpected])
  | .waitHeader, .ok bs =>
    match utf8Decode (bs.take HEADER) with
    | none => (.hDone, [.logInvalidHeader])
    | some [] => (.hDone, [])
    | some s =>
      match pythonInt s with
      | none => (.hDone, [.logInvalidHeader])
      | some i =>
        if i < 0 then (.hDone, [.logInvalidHeader])
        else (.waitPayload i.toNat, [.reqPayload i.toNat])
  | .waitPayload _, .reset => (.hDone, [.logReset])
  | .waitPayload _, .err => (.hDone, [.logUnexpected])
  | .waitPayload n, .ok pb =>
    match utf8Decode (pb.take n) with
    | none => (.hDone, [.logInvalidHeader])
    | some msg => (.waitSend msg, [.logMsg msg])
  | .waitSend _, .reset => (.hDone, [.logReset])
  | .waitSend _, .err => (.hDone, [.logUnexpected])
  | .waitSend msg, .ok _ =>
    if msg = MSG_DISCONNECT then (.hDone, [.sendAck]) else (.waitHeader, [.sendAck])
  | .hDone, _ => (.hDone, [])

/-- Run the handler loop over a schedule of socket-operation results,
consuming one result per operation; once the loop has exited (`hDone`) no
further results are consumed.  An exhausted schedule leaves the handler
blocked at its current control point. -/
def run : HState → List OpResult → HState × List Action
  | s, [] => (s, [])
  | s, e :: es =>
    if s = .hDone then (.hDone, [])
    else
      let p := step s e
      let q := run p.1 es
      (q.1, p.2 ++ q.2)

/-- The whole of `handle_client` (server.py lines 38-92): the loop, then —
only if the loop actually exited — the single `conn.close()`. -/
def handle_client (events : List OpResult) : List Action :=
  let r := run .waitHeader events
  if r.1 = .hDone then r.2 ++ [.close] else r.2

/-- Network outcome of one client `send(message)` call: `ok resp` means the
sends and the acknowledgment `recv` succeed (`resp` is the server's reply),
`lost` models `ConnectionResetError`/`BrokenPipeError` (caught, `send`
returns `False`), `fatal` any exception outside that tuple, which the
client does not catch. -/
inductive CNet
  | ok (resp : List Nat)
  | lost
  | fatal
deriving DecidableEq

/-- One iteration's inputs for the client loop: the operator's line (code
points) and the network outcome should a send happen. -/
structure CEvent where
  line : List Nat
  net : CNet
deriving DecidableEq

/-- Observable actions of the client: transmitting a frame, printing the
server's reply, printing the lost-connection message, `client.close()`. -/
inductive CAction
  | sentFrame (bytes : List Nat)
  | printServer (resp : List Nat)
  | printLost
  | close
deriving DecidableEq

/-- How the client's interactive loop ended: still blocked on `input()`
(schedule exhausted), exited via `break`, or killed by an uncaught
exception propagating out of the loop. -/
inductive CExit
  | blocked
  | broke
  | crashed
deriving DecidableEq

/-- The client's `send(msg)` (client.py lines 38-69): frame the message and
transmit it, then receive and print the acknowledgment.  Returns the
actions performed and `some b` for a normal return `b`, `none` when an
uncaught exception propagates. -/
def sendModel (msg : List Nat) : CNet → List CAction × Option Bool
  | .ok resp => ([.sentFrame (clientFrame (utf8Encode msg)), .printServer resp], some true)
  | .lost => ([.printLost], some false)
  | .fatal => ([], none)

/-- The client's interactive `while True` loop (client.py lines 78-91):
empty input is skipped, otherwise `send` runs; `break` on a `False` return
or after the disconnect sentinel. -/
def clientRun : List CEvent → List CAction × CExit
  | [] => ([], .blocked)
  | e :: rest =>
    if e.line = [] then clientRun rest
    else
      match sendModel e.line e.net with
      | (acts, none) => (acts, .crashed)
      | (acts, some false) => (acts, .broke)
      | (acts, some true) =>
        if e.line = MSG_DISCONNECT then (acts, .broke)
        else
          let q := clientRun rest
          (acts ++ q.1, q.2)

/-- The client main flow after connecting (client.py lines 78-98): the loop,
then `client.close()` — which is reached only on a `break` exit, since an
uncaught exception terminates the process before line 98. -/
def clientMain (events : List CEvent) : List CAction :=
  let r := clientRun events
  if r.2 = .broke then r.1 ++ [.close] else r.1

/-! ### Decimal rendering lemmas -/

theorem natToDecimalAux_fuel_irrel (f1 : Nat) : ∀ f2 n acc, n < f1 → n < f2 →
    natToDecimalAux f1 n acc = natToDecimalAux f2 n acc := by
  induction f1 with
  | zero => intro f2 n acc h1 _; omega
  | succ f ih =>
    intro f2 n acc h1 h2
    cases f2 with
    | zero => omega
    | succ g =>
      simp only [natToDecimalAux]
      by_cases hz : n / 10 = 0
      · simp [hz]
      · have hn : 10 ≤ n := by
          by_contra hlt
          exact hz (Nat.div_eq_of_lt (by omega))
        have hdiv : n / 10 < n := Nat.div_lt_self (by omega) (by omega)
        simp only [hz, if_neg]
        exact ih g (n / 10) _ (by omega) (by omega)

theorem natToDecimalAux_acc (fuel : Nat) : ∀ n acc, n < fuel →
    natToDecimalAux fuel n acc = natToDecimalAux fuel n [] ++ acc := by
  induction fuel with
  | zero => intro n acc h; omega
  | succ f ih =>
    intro n acc h
    simp only [natToDecimalAux]
    by_cases hz : n / 10 = 0
    · simp [hz]
    · have hn : 10 ≤ n := by
        by_contra hlt
        exact hz (Nat.div_eq_of_lt (by omega))
      have hdiv : n / 10 < n := Nat.div_lt_self (by omega) (by omega)
      simp only [hz, if_neg]
      rw [ih (n / 10) ((48 + n % 10) :: acc) (by omega),
          ih (n / 10) [48 + n % 10] (by omega)]
      simp

theorem natToDecimal_lt10 (n : Nat) (h : n < 10) : natToDecimal n = [48 + n] := by
  simp [natToDecimal, natToDecimalAux, Nat.div_eq_of_lt h, Nat.mod_eq_of_lt h]

theorem natToDecimal_ge10 (n : Nat) (h : 10 ≤ n) :
    natToDecimal n = natToDecimal (n / 10) ++ [48 + n % 10] := by
  have hz : n / 10 ≠ 0 := by
    intro hc
    have := Nat.div_pos h (by omega)
    omega
  have hdiv : n / 10 < n := Nat.div_lt_self (by omega) (by omega)
  show natToDecimalAux (n + 1) n [] = _
  simp only [natToDecimalAux, hz, if_neg]
  rw [natToDecimalAux_fuel_irrel n (n / 10 + 1) (n / 10) _ (by omega) (by omega),
      natToDecimalAux_acc (n / 10 + 1) (n / 10) _ (by omega)]
  rfl

/-- Numeric value of a digit-byte string, most significant digit first. -/
def digitsVal (ds : List Nat) : Nat := ds.foldl (fun a c => 10 * a + (c - 48)) 0

theorem digitsVal_append_single (ds : List Nat) (c : Nat) :
    digitsVal (ds ++ [c]) = 10 * digitsVal ds + (c - 48) := by
  simp [digitsVal, List.foldl_append]

theorem natToDecimal_val : ∀ n, digitsVal (natToDecimal n) = n := by
  intro n
  induction n using Nat.strong_induction_on with
  | _ n ih =>
    by_cases h : n < 10
    · simp [natToDecimal_lt10 n h, digitsVal]
    · have h10 : 10 ≤ n := by omega
      have hdiv : n / 10 < n := Nat.div_lt_self (by omega) (by omega)
      rw [natToDecimal_ge10 n h10, digitsVal_append_single, ih (n / 10) hdiv]
      have := Nat.div_add_mod n 10
      have : n % 10 < 10 := Nat.mod_lt n (by omega)
      omega

theorem natToDecimal_digits : ∀ n c, c ∈ natToDecimal n → 48 ≤ c ∧ c ≤ 57 := by
  intro n
  induction n using Nat.strong_induction_on with
  | _ n ih =>
    intro c hc
    by_cases h : n < 10
    · rw [natToDecimal_lt10 n h] at hc
      simp at hc
      omega
    · have h10 : 10 ≤ n := by omega
      have hdiv : n / 10 < n := Nat.div_lt_self (by omega) (by omega)
      rw [natToDecimal_ge10 n h10] at hc
      rcases List.mem_append.mp hc with hm | hm
      · exact ih (n / 10) hdiv c hm
      · simp at hm
        have : n % 10 < 10 := Nat.mod_lt n (by omega)
        omega

theorem natToDecimal_ne_nil (n : Nat) : natToDecimal n ≠ [] := by
  by_cases h : n < 10
  · simp [natToDecimal_lt10 n h]
  · simp [natToDecimal_ge10 n (by omega)]

theorem natToDecimal_head_pos : ∀ n, 1 ≤ n →
    ∃ d ds, natToDecimal n = d :: ds ∧ 49 ≤ d ∧ d ≤ 57 := by
  intro n
  induction n using Nat.strong_induction_on with
  | _ n ih =>
    intro h1
    by_cases h : n < 10
    · exact ⟨48 + n, [], natToDecimal_lt10 n h, by omega, by omega⟩
    · have h10 : 10 ≤ n := by omega
      have hdiv : n / 10 < n := Nat.div_lt_self (by omega) (by omega)
      have hpos : 1 ≤ n / 10 := Nat.div_pos h10 (by omega)
      obtain ⟨d, ds, heq, hd1, hd2⟩ := ih (n / 10) hdiv hpos
      exact ⟨d, ds ++ [48 + n % 10], by rw [natToDecimal_ge10 n h10, heq]; rfl, hd1, hd2⟩

/-! ### Parsing lemmas for the model of Python `int()` -/

theorem isWsByte_of_digit (c : Nat) (h : isDigitB c = true) : isWsByte c = false := by
  simp [isDigitB] at h
  simp [isWsByte]
  omega

theorem dropWhile_replicate_append (p : Nat → Bool) (a : Nat) (h : p a = true) :
    ∀ k t, (List.replicate k a ++ t).dropWhile p = t.dropWhile p := by
  intro k
  induction k with
  | zero => intro t; rfl
  | succ m ih =>
    intro t
    rw [List.replicate_succ, List.cons_append, List.dropWhile_cons]
    simp [h, ih t]

theorem stripWs_digits_pad (ds : List Nat) (k : Nat) (h1 : ds ≠ [])
    (h2 : ∀ c ∈ ds, isDigitB c = true) :
    stripWs (ds ++ List.replicate k 32) = ds := by
  have hws : ∀ c ∈ ds, isWsByte c = false := fun c hc => isWsByte_of_digit c (h2 c hc)
  unfold stripWs
  obtain ⟨d, ds', rfl⟩ := List.exists_cons_of_ne_nil h1
  rw [List.cons_append, List.dropWhile_cons]
  rw [hws d (by simp)]
  simp only [Bool.false_eq_true, if_false]
  have hrev : (d :: (ds' ++ List.replicate k 32)).reverse
      = List.replicate k 32 ++ (d :: ds').reverse := by
    rw [← List.cons_append, List.reverse_append, List.reverse_replicate]
  rw [hrev, dropWhile_replicate_append isWsByte 32 (by decide) k]
  cases h3 : (d :: ds').reverse with
  | nil => simp at h3
  | cons e es =>
    have he : e ∈ d :: ds' := by
      have hm : e ∈ (d :: ds').reverse := by rw [h3]; simp
      rw [List.mem_reverse] at hm
      exact hm
    rw [List.dropWhile_cons, hws e he]
    simp only [Bool.false_eq_true, if_false]
    rw [← h3, List.reverse_reverse]

theorem parseDigitRun_all_digits : ∀ ds acc, (∀ c ∈ ds, isDigitB c = true) →
    parseDigitRun acc ds = some (ds.foldl (fun a c => 10 * a + (c - 48)) acc) := by
  intro ds
  induction ds with
  | nil => intro acc _; rfl
  | cons c cs ih =>
    intro acc h
    have hc : isDigitB c = true := h c (by simp)
    have hstep : parseDigitRun acc (c :: cs) = parseDigitRun (10 * acc + (c - 48)) cs := by
      rw [parseDigitRun.eq_def]
      simp [hc]
    rw [hstep, List.foldl_cons]
    exact ih _ (fun x hx => h x (by simp [hx]))

theorem pythonInt_digits_pad (ds : List Nat) (k : Nat) (h1 : ds ≠ [])
    (h2 : ∀ c ∈ ds, isDigitB c = true) :
    pythonInt (ds ++ List.replicate k 32) = some (digitsVal ds : Int) := by
  unfold pythonInt
  rw [stripWs_digits_pad ds k h1 h2]
  obtain ⟨d, ds', rfl⟩ := List.exists_cons_of_ne_nil h1
  have hd : isDigitB d = true := h2 d (by simp)
  have hd48 : 48 ≤ d ∧ d ≤ 57 := by simpa [isDigitB] using hd
  have h43 : d ≠ 43 := by omega
  have h45 : d ≠ 45 := by omega
  simp only [h43, h45, if_false]
  unfold parseBody
  simp only [hd, if_true]
  rw [parseDigitRun_all_digits ds' (d - 48) (fun x hx => h2 x (by simp [hx]))]
  have : digitsVal (d :: ds') = ds'.foldl (fun a c => 10 * a + (c - 48)) (d - 48) := by
    simp [digitsVal]
  simp [this]

theorem pythonInt_digits (ds : List Nat) (h1 : ds ≠ [])
    (h2 : ∀ c ∈ ds, isDigitB c = true) :
    pythonInt ds = some (digitsVal ds : Int) := by
  have := pythonInt_digits_pad ds 0 h1 h2
  simpa using this

theorem foldl_digits_ge (step : Nat → Nat → Nat)
    (hstep : ∀ a c, a ≤ step a c) : ∀ (ds : List Nat) (a : Nat), a ≤ ds.foldl step a := by
  intro ds
  induction ds with
  | nil => intro a; simp
  | cons c cs ih =>
    intro a
    calc a ≤ step a c := hstep a c
    _ ≤ cs.foldl step (step a c) := ih _
    _ = (c :: cs).foldl step a := by simp

theorem digitsVal_pos (d : Nat) (ds : List Nat) (h : 49 ≤ d) :
    1 ≤ digitsVal (d :: ds) := by
  have h1 : digitsVal (d :: ds) = ds.foldl (fun a c => 10 * a + (c - 48)) (d - 48) := by
    simp [digitsVal]
  have h2 : d - 48 ≤ ds.foldl (fun a c => 10 * a + (c - 48)) (d - 48) :=
    foldl_digits_ge _ (fun a c => by omega) ds (d - 48)
  omega

/-! ### UTF-8 lemmas -/

theorem utf8Decode_ascii : ∀ l : List Nat, (∀ c ∈ l, c < 128) → utf8Decode l = some l := by
  intro l
  induction l with
  | nil => intro _; rfl
  | cons b rest ih =>
    intro h
    have hb : b < 128 := h b (by simp)
    show utf8DecodeAux none (b :: rest) = _
    rw [utf8DecodeAux.eq_def]
    simp only [hb, if_true]
    rw [show utf8DecodeAux none rest = utf8Decode rest from rfl,
        ih (fun c hc => h c (by simp [hc]))]
    rfl

theorem utf8DecodeAux_pending_ne_nil :
    ∀ (l : List Nat) st r, utf8DecodeAux (some st) l = some r → r ≠ [] := by
  intro l
  induction l with
  | nil => intro st r h; exact Option.noConfusion h
  | cons b rest ih =>
    intro st r h
    obtain ⟨need, acc, lo⟩ := st
    rw [utf8DecodeAux.eq_def] at h
    simp only at h
    split at h
    · split at h
      · split at h
        · rw [Option.map_eq_some'] at h
          obtain ⟨a, _, ha⟩ := h
          intro hr
          rw [hr] at ha
          exact List.noConfusion ha
        · exact Option.noConfusion h
      · exact ih _ r h
    · exact Option.noConfusion h

theorem utf8Decode_some_nil : ∀ l : List Nat, utf8Decode l = some [] → l = [] := by
  intro l h
  cases l with
  | nil => rfl
  | cons b rest =>
    exfalso
    rw [utf8Decode, utf8DecodeAux.eq_def] at h
    simp only at h
    split at h
    · rw [Option.map_eq_some'] at h
      obtain ⟨a, _, ha⟩ := h
      exact List.noConfusion ha
    · split at h
      · exact Option.noConfusion h
      · split at h
        · exact utf8DecodeAux_pending_ne_nil rest _ [] h rfl
        · split at h
          · exact utf8DecodeAux_pending_ne_nil rest _ [] h rfl
          · split at h
            · exact utf8DecodeAux_pending_ne_nil rest _ [] h rfl
            · exact Option.noConfusion h

/-! ### Frame and header lemmas -/

theorem clientHeaderBytes_length (L : Nat) (h : (natToDecimal L).length ≤ 64) :
    (clientHeaderBytes L).length = HEADER := by
  simp only [clientHeaderBytes, HEADER, List.length_append, List.length_replicate]
  omega

theorem clientHeaderBytes_ascii (L : Nat) : ∀ c ∈ clientHeaderBytes L, c < 128 := by
  intro c hc
  rcases List.mem_append.mp hc with hm | hm
  · have := natToDecimal_digits L c hm
    omega
  · have := List.eq_of_mem_replicate hm
    omega

theorem frame_header_decodes (payload : List Nat)
    (h : (natToDecimal payload.length).length ≤ 64) :
    decodeHeaderVal ((clientFrame payload).take HEADER)
      = some (payload.length : Int)
    ∧ (clientFrame payload).drop HEADER = payload := by
  have hlen : (clientHeaderBytes payload.length).length = HEADER :=
    clientHeaderBytes_length payload.length h
  have htake : (clientFrame payload).take HEADER = clientHeaderBytes payload.length :=
    List.take_left' hlen
  have hdrop : (clientFrame payload).drop HEADER = payload :=
    List.drop_left' hlen
  refine ⟨?_, hdrop⟩
  rw [htake]
  unfold decodeHeaderVal
  rw [utf8Decode_ascii _ (clientHeaderBytes_ascii payload.length)]
  show pythonInt (clientHeaderBytes payload.length) = _
  unfold clientHeaderBytes
  rw [pythonInt_digits_pad _ _ (natToDecimal_ne_nil payload.length)
        (fun c hc => by
          have := natToDecimal_digits payload.length c hc
          simp [isDigitB]
          omega),
      natToDecimal_val]

/-! ### Server handler loop lemmas -/

theorem run_done : ∀ es, run .hDone es = (.hDone, []) := by
  intro es
  cases es with
  | nil => rfl
  | cons e es' => simp [run]

theorem run_append : ∀ (xs : List OpResult) (s : HState) (ys : List OpResult),
    run s (xs ++ ys)
      = ((run (run s xs).1 ys).1, (run s xs).2 ++ (run (run s xs).1 ys).2) := by
  intro xs
  induction xs with
  | nil => intro s ys; simp [run]
  | cons e es ih =>
    intro s ys
    by_cases hs : s = .hDone
    · subst hs
      simp [run, run_done]
    · rw [List.cons_append]
      simp only [run, hs, if_false]
      rw [ih (step s e).1 ys]
      simp [List.append_assoc]

theorem step_no_close : ∀ s e, Action.close ∉ (step s e).2 := by
  intro s e
  cases s <;> cases e <;> simp only [step] <;>
    first
      | simp
      | (repeat' split) <;> simp

theorem run_no_close : ∀ (es : List OpResult) (s : HState), Action.close ∉ (run s es).2 := by
  intro es
  induction es with
  | nil => intro s; simp [run]
  | cons e es' ih =>
    intro s
    by_cases hs : s = .hDone
    · subst hs; simp [run]
    · simp only [run, hs, if_false]
      rw [List.mem_append]
      push_neg
      exact ⟨step_no_close s e, ih (step s e).1⟩

/-! ### Client loop lemmas -/

theorem clientRun_no_close : ∀ es : List CEvent, CAction.close ∉ (clientRun es).1 := by
  intro es
  induction es with
  | nil => simp [clientRun]
  | cons e rest ih =>
    by_cases hl : e.line = []
    · simp [clientRun, hl, ih]
    · cases hn : e.net with
      | ok resp =>
        by_cases hd : e.line = MSG_DISCONNECT
        · have hne : MSG_DISCONNECT ≠ ([] : List Nat) := by decide
          simp [clientRun, hl, hn, sendModel, hd, hne]
        · simp [clientRun, hl, hn, sendModel, hd, ih]
      | lost => simp [clientRun, hl, hn, sendModel]
      | fatal => simp [clientRun, hl, hn, sendModel]

/-! ### Further codec helper lemmas -/

theorem clientHeaderBytes_no_pad (L : Nat) (h : 64 < (natToDecimal L).length) :
    clientHeaderBytes L = natToDecimal L := by
  have hz : HEADER - (natToDecimal L).length = 0 := by
    simp only [HEADER]
    omega
  unfold clientHeaderBytes
  rw [hz]
  simp

theorem utf8EncodeChar_ne_nil (c : Nat) : utf8EncodeChar c ≠ [] := by
  unfold utf8EncodeChar
  repeat' split
  all_goals simp

theorem utf8Encode_cons (c : Nat) (rest : List Nat) :
    utf8Encode (c :: rest) = utf8EncodeChar c ++ utf8Encode rest := by
  simp [utf8Encode]

theorem utf8Encode_ne_nil (line : List Nat) (h : line ≠ []) : utf8Encode line ≠ [] := by
  obtain ⟨c, rest, rfl⟩ := List.exists_cons_of_ne_nil h
  rw [utf8Encode_cons]
  intro hc
  rcases List.append_eq_nil.mp hc with ⟨h1, _⟩
  exact utf8EncodeChar_ne_nil c h1

/-! ### Claims about the framing codec (client encoding, server header decoding) -/

/-- Claim C1: for every text payload whose UTF-8 byte length has a decimal
representation of at most 64 characters, decoding the 64-byte header of the
frame produced by the client's encoding steps (UTF-8 encode, decimal ASCII
length, right-pad with spaces to 64 bytes, header then payload) yields
exactly the payload's byte length, and the bytes after the header are the
original payload bytes unchanged. -/
theorem frame_header_roundtrip (line : List Nat)
    (h : (natToDecimal (utf8Encode line).length).length ≤ 64) :
    decodeHeaderVal ((clientFrame (utf8Encode line)).take HEADER)
      = some ((utf8Encode line).length : Int)
    ∧ (clientFrame (utf8Encode line)).drop HEADER = utf8Encode line :=
  frame_header_decodes (utf8Encode line) h

/-- Witness for C1 at the payload `"hi"`. -/
theorem frame_header_roundtrip_witness :
    (natToDecimal (utf8Encode [104, 105]).length).length ≤ 64
    ∧ (decodeHeaderVal ((clientFrame (utf8Encode [104, 105])).take HEADER)
        = some ((utf8Encode [104, 105]).length : Int)
      ∧ (clientFrame (utf8Encode [104, 105])).drop HEADER = utf8Encode [104, 105]) :=
  ⟨by decide, frame_header_roundtrip [104, 105] (by decide)⟩

/-- Claim C2 counterexample: for a payload of `10 ^ 64` bytes (whose length's
decimal form has 65 characters) the client's encoding steps do not fail:
the padding count is zero and the frame transmitted carries the unpadded
65-byte header, i.e. a malformed header is sent rather than an error. -/
theorem oversized_payload_frame_emitted :
    clientFrame (List.replicate (10 ^ 64) 48)
      = natToDecimal (10 ^ 64) ++ List.replicate (10 ^ 64) 48
    ∧ (natToDecimal (10 ^ 64)).length = 65 := by
  have h65 : (natToDecimal (10 ^ 64)).length = 65 := by decide
  constructor
  · show clientHeaderBytes (List.replicate (10 ^ 64) (48 : Nat)).length ++ _ = _
    rw [List.length_replicate, clientHeaderBytes_no_pad (10 ^ 64) (by omega)]
  · exact h65

/-- Claim C2 amended: for every payload byte length whose decimal
representation exceeds the 64-character header width, the client raises no
error: the padding computation contributes zero bytes and the header
emitted is the bare decimal digits, longer than 64 bytes. -/
theorem oversized_length_header_unpadded (L : Nat)
    (h : 64 < (natToDecimal L).length) :
    clientHeaderBytes L = natToDecimal L ∧ 64 < (clientHeaderBytes L).length := by
  refine ⟨clientHeaderBytes_no_pad L h, ?_⟩
  rw [clientHeaderBytes_no_pad L h]
  exact h

/-- Witness for the amended C2 at length `10 ^ 64`. -/
theorem oversized_length_header_unpadded_witness :
    64 < (natToDecimal (10 ^ 64)).length
    ∧ (clientHeaderBytes (10 ^ 64) = natToDecimal (10 ^ 64)
        ∧ 64 < (clientHeaderBytes (10 ^ 64)).length) :=
  ⟨by decide, oversized_length_header_unpadded (10 ^ 64) (by decide)⟩

/-- Claim C10: the client never frames a zero-length payload: a non-empty
input line UTF-8 encodes to at least one byte, and the header of the frame
built for it always decodes to a strictly positive integer. -/
theorem client_frame_length_positive (line : List Nat) (h : line ≠ []) :
    1 ≤ (utf8Encode line).length
    ∧ ∃ n : Nat, 1 ≤ n
        ∧ decodeHeaderVal ((clientFrame (utf8Encode line)).take HEADER)
            = some (n : Int) := by
  have hne : utf8Encode line ≠ [] := utf8Encode_ne_nil line h
  have hlen : 1 ≤ (utf8Encode line).length := by
    cases hel : utf8Encode line with
    | nil => exact absurd hel hne
    | cons a t => simp
  refine ⟨hlen, ?_⟩
  by_cases hd : (natToDecimal (utf8Encode line).length).length ≤ 64
  · exact ⟨(utf8Encode line).length, hlen, (frame_header_decodes (utf8Encode line) hd).1⟩
  · -- oversized length: the first 64 bytes of the frame are the leading
    -- 64 digits of the decimal length, still a positive number
    set L := (utf8Encode line).length with hL
    have h64 : 64 < (natToDecimal L).length := by omega
    have hframe : clientFrame (utf8Encode line)
        = natToDecimal L ++ utf8Encode line := by
      unfold clientFrame
      rw [← hL, clientHeaderBytes_no_pad L h64]
    have htake : (clientFrame (utf8Encode line)).take HEADER
        = (natToDecimal L).take 64 := by
      rw [hframe]
      exact List.take_append_of_le_length (by simp only [HEADER]; omega)
    obtain ⟨d, ds, hdds, hd49, hd57⟩ := natToDecimal_head_pos L (by omega)
    have htake2 : (natToDecimal L).take 64 = d :: ds.take 63 := by
      rw [hdds]
      exact List.take_succ_cons
    have hdig : ∀ c ∈ (natToDecimal L).take 64, isDigitB c = true := by
      intro c hc
      have := natToDecimal_digits L c (List.take_subset 64 (natToDecimal L) hc)
      simp [isDigitB]
      omega
    have hascii : ∀ c ∈ (natToDecimal L).take 64, c < 128 := by
      intro c hc
      have := natToDecimal_digits L c (List.take_subset 64 (natToDecimal L) hc)
      omega
    refine ⟨digitsVal ((natToDecimal L).take 64), ?_, ?_⟩
    · rw [htake2]
      exact digitsVal_pos d (ds.take 63) hd49
    · rw [htake]
      unfold decodeHeaderVal
      rw [utf8Decode_ascii _ hascii]
      show pythonInt ((natToDecimal L).take 64) = _
      rw [pythonInt_digits ((natToDecimal L).take 64) (by rw [htake2]; simp) hdig]

/-- Witness for C10 at the line `"a"`. -/
theorem client_frame_length_positive_witness :
    ([97] : List Nat) ≠ []
    ∧ (1 ≤ (utf8Encode [97]).length
        ∧ ∃ n : Nat, 1 ≤ n
            ∧ decodeHeaderVal ((clientFrame (utf8Encode [97])).take HEADER)
                = some (n : Int)) :=
  ⟨by decide, client_frame_length_positive [97] (by decide)⟩

/-! ### Claims about the server connection handler -/

theorem run_cons (s : HState) (e : OpResult) (es : List OpResult) (h : s ≠ .hDone) :
    run s (e :: es)
      = ((run (step s e).1 es).1, (step s e).2 ++ (run (step s e).1 es).2) := by
  simp [run, h]

/-- Claim C3 fails on the code: the handler's reads are single `recv` calls
that accept short reads.  Here the first `recv(64)` returns only the two
bytes `"12"`; the handler accepts them as a complete header and proceeds to
request a 12-byte payload, and likewise accepts a 1-byte short payload read,
rather than looping until 64 header bytes arrive. -/
theorem server_accepts_short_reads :
    run .waitHeader [.ok [49, 50]] = (.waitPayload 12, [.reqPayload 12])
    ∧ handle_client [.ok [49, 50], .ok [97], .ok [], .ok []]
        = [.reqPayload 12, .logMsg [97], .sendAck, .close] := by
  constructor
  · decide
  · decide

/-- Claim C4: a received 64-byte header either parses (UTF-8 decode, then
Python `int()`) to a non-negative integer `n`, in which case the handler
proceeds to read an `n`-byte payload, or it does not parse as a non-negative
integer (parse failure, undecodable bytes, or a negative value — which makes
`conn.recv` raise `ValueError` before any I/O), in which case the handler
takes the invalid-header branch.  No negative length is ever accepted. -/
theorem server_header_nonneg_or_invalid (bs : List Nat) (hlen : bs.length = HEADER) :
    (∃ n : Nat, decodeHeaderVal bs = some (n : Int)
        ∧ step .waitHeader (.ok bs) = (.waitPayload n, [.reqPayload n]))
    ∨ ((∀ n : Nat, decodeHeaderVal bs ≠ some (n : Int))
        ∧ step .waitHeader (.ok bs) = (.hDone, [.logInvalidHeader])) := by
  have htake : bs.take HEADER = bs := by
    rw [← hlen]
    exact List.take_length bs
  have hbs : bs ≠ [] := by
    intro hc
    rw [hc] at hlen
    simp [HEADER] at hlen
  cases hdec : utf8Decode bs with
  | none =>
    refine Or.inr ⟨?_, ?_⟩
    · intro n
      simp [decodeHeaderVal, hdec]
    · simp [step, htake, hdec]
  | some s =>
    cases s with
    | nil => exact absurd (utf8Decode_some_nil bs hdec) hbs
    | cons c cs =>
      cases hpi : pythonInt (c :: cs) with
      | none =>
        refine Or.inr ⟨?_, ?_⟩
        · intro n
          simp [decodeHeaderVal, hdec, hpi]
        · simp [step, htake, hdec, hpi]
      | some i =>
        by_cases hneg : i < 0
        · refine Or.inr ⟨?_, ?_⟩
          · intro n
            simp only [decodeHeaderVal, hdec, Option.some_bind, hpi]
            intro hc
            rw [Option.some.injEq] at hc
            omega
          · simp [step, htake, hdec, hpi, hneg]
        · refine Or.inl ⟨i.toNat, ?_, ?_⟩
          · simp only [decodeHeaderVal, hdec, Option.some_bind, hpi]
            rw [Int.toNat_of_nonneg (by omega)]
          · simp [step, htake, hdec, hpi, hneg]

/-- Witness for C4 at the well-formed header `"5"` padded to 64 bytes. -/
theorem server_header_nonneg_or_invalid_witness :
    (([53] ++ List.replicate 63 32 : List Nat)).length = HEADER
    ∧ ((∃ n : Nat, decodeHeaderVal ([53] ++ List.replicate 63 32) = some (n : Int)
          ∧ step .waitHeader (.ok ([53] ++ List.replicate 63 32))
              = (.waitPayload n, [.reqPayload n]))
        ∨ ((∀ n : Nat,
              decodeHeaderVal ([53] ++ List.replicate 63 32) ≠ some (n : Int))
            ∧ step .waitHeader (.ok ([53] ++ List.replicate 63 32))
                = (.hDone, [.logInvalidHeader]))) :=
  ⟨by decide, server_header_nonneg_or_invalid ([53] ++ List.replicate 63 32) (by decide)⟩

/-- Claim C5: whenever the header read returns zero bytes — at the very
first iteration or after any number of completed iterations (`run` back at
`waitHeader` having emitted `acts`) — the handler exits its loop and closes
the connection exactly once, with no error log and no further read or send:
the complete trace is `acts` followed by `close` alone, and the remaining
schedule `rest` is never consumed. -/
theorem server_clean_close_on_zero_header (pre rest : List OpResult) (acts : List Action)
    (h : run .waitHeader pre = (.waitHeader, acts)) :
    handle_client (pre ++ .ok [] :: rest) = acts ++ [.close] := by
  have hstep : step .waitHeader (.ok []) = (.hDone, []) := by decide
  unfold handle_client
  rw [run_append pre .waitHeader (.ok [] :: rest), h]
  simp only
  rw [run_cons .waitHeader (.ok []) rest (by simp), hstep]
  simp [run_done]

/-- Witness for C5 with an empty prefix. -/
theorem server_clean_close_on_zero_header_witness :
    run .waitHeader [] = (.waitHeader, [])
    ∧ handle_client ([] ++ .ok [] :: []) = [] ++ [.close] :=
  ⟨by decide, server_clean_close_on_zero_header [] [] [] (by decide)⟩

/-- Claim C6: errors are contained in the handler.  For every schedule:
the connection is closed at most once, and exactly once — as the final
action, with no I/O after it — whenever the loop exits; whenever the
handler is blocked waiting on a socket operation, that operation raising
`ConnectionResetError` (resp. any other exception) is logged and ends the
loop; and once the loop has exited, no further scheduled events are
consumed (nothing escapes to the listener or other handlers, which share
no state with this one). -/
theorem server_error_containment (events : List OpResult) :
    (handle_client events).count .close ≤ 1
    ∧ ((run .waitHeader events).1 = .hDone →
        handle_client events = (run .waitHeader events).2 ++ [.close]
        ∧ (handle_client events).count .close = 1)
    ∧ (∀ s acts, run .waitHeader events = (s, acts) → s ≠ .hDone →
        run .waitHeader (events ++ [.reset]) = (.hDone, acts ++ [.logReset])
        ∧ run .waitHeader (events ++ [.err]) = (.hDone, acts ++ [.logUnexpected]))
    ∧ (∀ more, (run .waitHeader events).1 = .hDone →
        run .waitHeader (events ++ more) = (.hDone, (run .waitHeader events).2)) := by
  have hno : Action.close ∉ (run .waitHeader events).2 := run_no_close events .waitHeader
  have hcount0 : ((run .waitHeader events).2).count Action.close = 0 :=
    List.count_eq_zero.mpr hno
  refine ⟨?_, ?_, ?_, ?_⟩
  · unfold handle_client
    by_cases hd : (run .waitHeader events).1 = .hDone
    · simp [hd, List.count_append, hcount0]
    · simp [hd, hcount0]
  · intro hd
    constructor
    · simp [handle_client, hd]
    · simp [handle_client, hd, List.count_append, hcount0]
  · intro s acts h hs
    have h1 : (run .waitHeader events).1 = s := by rw [h]
    have h2 : (run .waitHeader events).2 = acts := by rw [h]
    constructor
    · rw [run_append events .waitHeader [.reset], h1, h2,
          run_cons s .reset [] hs]
      have : step s .reset = (.hDone, [.logReset]) := by
        cases s with
        | waitHeader => rfl
        | waitPayload n => rfl
        | waitSend m => rfl
        | hDone => exact absurd rfl hs
      simp [this, run]
    · rw [run_append events .waitHeader [.err], h1, h2,
          run_cons s .err [] hs]
      have : step s .err = (.hDone, [.logUnexpected]) := by
        cases s with
        | waitHeader => rfl
        | waitPayload n => rfl
        | waitSend m => rfl
        | hDone => exact absurd rfl hs
      simp [this, run]
  · intro more hd
    rw [run_append events .waitHeader more, hd, run_done]
    simp only [List.append_nil]

/-- Witness for C6: a reset arriving while the handler waits on its first
header read is logged and ends the loop. -/
theorem server_error_containment_witness :
    run .waitHeader ([] ++ [OpResult.reset]) = (.hDone, [] ++ [Action.logReset]) :=
  (((server_error_containment []).2.2.1) .waitHeader [] (by decide) (by decide)).1

/-- Claim C9: when the decoded payload equals the disconnect sentinel, the
handler still logs the message and sends the acknowledgment for that frame,
and only then exits the loop and closes the connection; the remaining
schedule is not consumed. -/
theorem server_acks_disconnect_frame (hdr pb ab : List Nat) (n : Nat)
    (rest : List OpResult)
    (h1 : step .waitHeader (.ok hdr) = (.waitPayload n, [.reqPayload n]))
    (h2 : utf8Decode (pb.take n) = some MSG_DISCONNECT) :
    handle_client (.ok hdr :: .ok pb :: .ok ab :: rest)
      = [.reqPayload n, .logMsg MSG_DISCONNECT, .sendAck, .close] := by
  have hstep2 : step (.waitPayload n) (.ok pb)
      = (.waitSend MSG_DISCONNECT, [.logMsg MSG_DISCONNECT]) := by
    simp [step, h2]
  have hstep3 : step (.waitSend MSG_DISCONNECT) (.ok ab) = (.hDone, [.sendAck]) := by
    simp [step]
  unfold handle_client
  rw [run_cons .waitHeader (.ok hdr) _ (by simp), h1]
  simp only
  rw [run_cons (.waitPayload n) (.ok pb) _ (by simp), hstep2]
  simp only
  rw [run_cons (.waitSend MSG_DISCONNECT) (.ok ab) _ (by simp), hstep3]
  simp [run_done]

/-- Witness for C9: header `"11"` padded to 64 bytes, payload
`"!Disconnect"`. -/
theorem server_acks_disconnect_frame_witness :
    step .waitHeader (.ok ([49, 49] ++ List.replicate 62 32))
        = (.waitPayload 11, [.reqPayload 11])
    ∧ utf8Decode ((utf8Encode MSG_DISCONNECT).take 11) = some MSG_DISCONNECT
    ∧ handle_client [.ok ([49, 49] ++ List.replicate 62 32),
        .ok (utf8Encode MSG_DISCONNECT), .ok []]
      = [.reqPayload 11, .logMsg MSG_DISCONNECT, .sendAck, .close] :=
  ⟨by decide, by decide,
    server_acks_disconnect_frame ([49, 49] ++ List.replicate 62 32)
      (utf8Encode MSG_DISCONNECT) [] 11 [] (by decide) (by decide)⟩

/-! ### Claims about the client interactive loop -/

/-- Claim C7: in every iteration of the client loop, an empty input line is
ignored (nothing framed, sent or received; the loop re-prompts on the rest
of the schedule); a non-empty, non-sentinel line is framed and sent and the
acknowledgment is read and displayed before the loop continues; and the
loop terminates immediately after an iteration that sent the disconnect
sentinel, whether the send succeeded or reported a lost connection. -/
theorem client_loop_behavior :
    (∀ (net : CNet) (rest : List CEvent),
        clientRun (⟨[], net⟩ :: rest) = clientRun rest)
    ∧ (∀ (l resp : List Nat) (rest : List CEvent), l ≠ [] → l ≠ MSG_DISCONNECT →
        clientRun (⟨l, .ok resp⟩ :: rest)
          = (.sentFrame (clientFrame (utf8Encode l)) :: .printServer resp
                :: (clientRun rest).1,
             (clientRun rest).2))
    ∧ (∀ (resp : List Nat) (rest : List CEvent),
        clientRun (⟨MSG_DISCONNECT, .ok resp⟩ :: rest)
          = ([.sentFrame (clientFrame (utf8Encode MSG_DISCONNECT)),
              .printServer resp], .broke))
    ∧ (∀ (l : List Nat) (rest : List CEvent), l ≠ [] →
        clientRun (⟨l, .lost⟩ :: rest) = ([.printLost], .broke)) := by
  have hne : MSG_DISCONNECT ≠ ([] : List Nat) := by decide
  refine ⟨?_, ?_, ?_, ?_⟩
  · intro net rest
    simp [clientRun]
  · intro l resp rest hl hd
    simp [clientRun, sendModel, hl, hd]
  · intro resp rest
    simp [clientRun, sendModel, hne]
  · intro l rest hl
    simp [clientRun, sendModel, hl]

/-- Witness for C7: the line `"a"` answered with `"ok"`-like reply `[65]`,
then a lost connection ending the loop. -/
theorem client_loop_behavior_witness :
    ([97] : List Nat) ≠ [] ∧ ([97] : List Nat) ≠ MSG_DISCONNECT
    ∧ clientRun [⟨[97], .ok [65]⟩, ⟨[98], .lost⟩]
        = (.sentFrame (clientFrame (utf8Encode [97])) :: .printServer [65]
              :: (clientRun [⟨[98], .lost⟩]).1,
           (clientRun [⟨[98], .lost⟩]).2) :=
  ⟨by decide, by decide,
    client_loop_behavior.2.1 [97] [65] [⟨[98], .lost⟩] (by decide) (by decide)⟩

/-- Claim C8 counterexample: an exception outside the caught
`(ConnectionResetError, BrokenPipeError)` tuple raised during an iteration
propagates out of the loop, and `client.close()` on line 98 is never
executed: on this error exit path the socket is closed zero times, not
exactly once. -/
theorem client_close_skipped_on_uncaught_error :
    (clientRun [⟨[97], .fatal⟩]).2 = .crashed
    ∧ (clientMain [⟨[97], .fatal⟩]).count .close = 0 := by
  constructor
  · decide
  · decide

/-- Claim C8 amended: the client socket is closed exactly once on the two
`break` exit paths of the loop (lost-connection send failure and the
disconnect sentinel), and zero times when an uncaught error escapes an
iteration; it is never closed twice. -/
theorem client_close_on_break_paths (events : List CEvent) :
    (clientMain events).count .close ≤ 1
    ∧ ((clientRun events).2 = .broke → (clientMain events).count .close = 1)
    ∧ ((clientRun events).2 = .crashed → (clientMain events).count .close = 0) := by
  have hno : CAction.close ∉ (clientRun events).1 := clientRun_no_close events
  have hcount0 : ((clientRun events).1).count CAction.close = 0 :=
    List.count_eq_zero.mpr hno
  refine ⟨?_, ?_, ?_⟩
  · unfold clientMain
    by_cases hb : (clientRun events).2 = .broke
    · simp [hb, List.count_append, hcount0]
    · simp [hb, hcount0]
  · intro hb
    simp [clientMain, hb, List.count_append, hcount0]
  · intro hc
    have hb : (clientRun events).2 ≠ .broke := by
      rw [hc]
      decide
    simp [clientMain, hb, hcount0]

/-- Witness for the amended C8 on the lost-connection exit path. -/
theorem client_close_on_break_paths_witness :
    (clientRun [⟨[97], .lost⟩]).2 = .broke
    ∧ (clientMain [⟨[97], .lost⟩]).count .close = 1 :=
  ⟨by decide, (client_close_on_break_paths [⟨[97], .lost⟩]).2.1 (by decide)⟩

end TcpChat
